import Mathlib

/-!
Shallow embedding of the plumet style-tree compiler (src generator module).

The source is TypeScript.  JS strings become Lean `String`, `undefined`/`null`
values become `Option`, and the output accumulator array (`out: string[]`,
joined with `""` at the end) becomes plain string concatenation.  Property
values of a declaration block are modelled already stringified (`String(v)` in
the source); an absent (`null`/`undefined`) value is `none`.
-/

namespace Plumet

/-- Concatenation of `f` over a list; models pushing `f a` for each element
onto the output array and joining with the empty string. -/
def concatMap (f : α → String) : List α → String
  | [] => ""
  | a :: as => f a ++ concatMap f as

/-- The three output formats of the generator (`PlumetFormat`). -/
inductive PlumetFormat where
  | default
  | minify
  | pretty
deriving DecidableEq, Repr

/-- A declaration block (`CSS.Properties`): ordered property/value pairs,
`none` modelling an absent (`null`/`undefined`) value. -/
def Props := List (String × Option String)

mutual

/-- A `PlumetStyle` node: the optional `$` declaration block plus the other
entries of the object in key order. -/
inductive Style where
  | mk (dollar : Option (List (String × Option String))) (children : Children)

/-- The non-`$` entries of a style object, in `Object.keys` order. -/
inductive Children where
  | nil
  | cons (key : String) (child : Child) (rest : Children)

/-- A child entry's value: `skip` models a falsy or non-object value (the
source skips those), `node` an actual nested style object. -/
inductive Child where
  | skip
  | node (style : Style)

end

/-- Source `kebabCase`, one character at a time: an uppercase ASCII letter
(code 65..90) becomes a hyphen followed by its lowercase form (code + 32). -/
def kebabChar (c : Char) : String :=
  if 65 ≤ c.toNat ∧ c.toNat ≤ 90 then
    String.singleton '-' ++ String.singleton (Char.ofNat (c.toNat + 32))
  else
    String.singleton c

/-- Source `kebabCase` without its cache (the cached variant is
`kebabCaseC` below): concatenates `kebabChar` over the key's characters. -/
def kebabCase (key : String) : String :=
  concatMap kebabChar key.data

/-- Source `injectSelector`: if the template has no `&` it is returned
verbatim; otherwise every occurrence of `&` is replaced by `selector`
(the source does this with an `indexOf`/`slice` loop; character-wise
replacement is the same function). -/
def injectChar (selector : String) (c : Char) : String :=
  if c = '&' then selector else String.singleton c

/-- Source `injectSelector`. -/
def injectSelector (template selector : String) : String :=
  if template.data.contains '&' then
    concatMap (injectChar selector) template.data
  else
    template

/-- Source `resolveSelector`: `&`-templates substitute the parent, a leading
`:` concatenates onto the parent, otherwise space-join with a non-empty
parent (`if (parent)` is JS truthiness, i.e. non-empty), else the key. -/
def resolveSelector (parent key : String) : String :=
  if key.data.contains '&' then
    injectSelector key parent
  else if key.data.head? = some ':' then
    parent ++ key
  else if parent ≠ "" then
    parent ++ " " ++ key
  else
    key

/-- ECMAScript line terminators: the characters the regex atom `.` does NOT
match when the `s` (dotAll) flag is absent — LF, CR, U+2028, U+2029. -/
def isLineTerm (c : Char) : Bool :=
  c = '\n' || c = '\r' || c = Char.ofNat 0x2028 || c = Char.ofNat 0x2029

/-- The suffixes of `s` reachable by consuming zero or more leading
NON-line-terminator characters — the strings `.*` can leave behind. -/
def starSuffixes : List Char → List (List Char)
  | [] => [[]]
  | c :: s =>
    (c :: s) :: (if isLineTerm c then [] else starSuffixes s)

/-- Semantics of the anchored regex built by source `globToRegex`
(`^` + escaped pattern with `*` ↦ `.*` + `$`, compiled with NO flags):
executable matcher over the whole string.  Every non-`*` pattern character
is matched literally (the source escapes all regex metacharacters); `*`
(compiled to `.*`, with `.` lacking the dotAll flag) matches any sequence
of non-line-terminator characters, i.e. the rest of the pattern must match
one of the `starSuffixes`. -/
def globMatchAux : List Char → List Char → Bool
  | [], s => s.isEmpty
  | pc :: ps, s =>
    if pc = '*' then
      (starSuffixes s).any (fun t => globMatchAux ps t)
    else
      match s with
      | [] => false
      | c :: s' => pc == c && globMatchAux ps s'

/-- Whole-string match of a glob pattern against a selector. -/
def globMatch (glob s : String) : Bool :=
  globMatchAux glob.data s.data

/-- Source `createOmitMatcher`: no patterns gives the constant-false
predicate, otherwise the disjunction of the compiled patterns. -/
def createOmitMatcher (omitList : Option (List String)) : String → Bool :=
  let pats := omitList.getD []
  if pats.isEmpty then fun _ => false
  else fun selector => pats.any (fun g => globMatch g selector)

/-- Source `collectDeclarations`: skip `null`/`undefined` values, kebab-case
the property name, keep source order. -/
def collectDeclarations : Option (List (String × Option String)) → List (String × String)
  | none => []
  | some props => props.filterMap (fun p => p.2.map (fun v => (kebabCase p.1, v)))

/-- Source `indent`: two spaces per depth level, only in `pretty` format. -/
def indentStr : Nat → String
  | 0 => ""
  | n + 1 => indentStr n ++ "  "

/-- Source `indent`. -/
def indent (depth : Nat) (format : PlumetFormat) : String :=
  if format ≠ .pretty then "" else indentStr depth

/-- Source `writeRule` (result of the pushes, joined). -/
def writeRule (selector : String) (declarations : List (String × String))
    (depth : Nat) (format : PlumetFormat) : String :=
  if format = .pretty then
    indent depth format ++ selector ++ " \x7b\n" ++
      concatMap (fun d => indent (depth + 1) format ++ d.1 ++ ": " ++ d.2 ++ ";\n")
        declarations ++
      indent depth format ++ "\x7d\n"
  else
    selector ++ "\x7b" ++
      concatMap (fun d => d.1 ++ ":" ++ d.2 ++ ";") declarations ++
      "\x7d" ++ (if format = .default then "\n" else "")

/-- Source `writeDeclarations` (bare declarations, no selector wrapper). -/
def writeDeclarations (declarations : List (String × String))
    (depth : Nat) (format : PlumetFormat) : String :=
  if format = .pretty then
    concatMap (fun d => indent depth format ++ d.1 ++ ": " ++ d.2 ++ ";\n") declarations
  else
    concatMap (fun d => d.1 ++ ":" ++ d.2 ++ ";") declarations

/-- Source `wrapAtRule`: empty body gives the empty string. -/
def wrapAtRule (name body : String) (depth : Nat) (format : PlumetFormat) : String :=
  if body = "" then ""
  else if format = .pretty then
    indent depth format ++ name ++ " \x7b\n" ++ body ++ indent depth format ++ "\x7d\n"
  else
    name ++ "\x7b" ++ body ++ "\x7d" ++ (if format = .default then "\n" else "")

/-- `key.charCodeAt(0) === 64`: the key denotes an at-rule. -/
def isAtKey (key : String) : Bool :=
  key.data.head? = some '@'

mutual

/-- Source `compileRuleNode`: render the node's own declarations (if any)
at the current selector, then walk the children.  (The source also returns
whether output grew; every caller ignores that flag, so it is dropped.) -/
def compileRuleNode (selector : String) (style : Style) (depth : Nat)
    (format : PlumetFormat) (isOmitted : String → Bool) : String :=
  match style with
  | .mk dollar children =>
    let declarations := collectDeclarations dollar
    (if declarations.isEmpty then "" else writeRule selector declarations depth format) ++
      ruleChildren selector children depth format isOmitted

/-- The child loop of source `compileRuleNode` (lines 178-242).  The inline
at-rule block there (lines 185-233) is textually the body of
`compileAtRule` with the same outer selector and depth, so it is rendered
through the shared `atBody`; the `if (body)` guard before the push is kept. -/
def ruleChildren (selector : String) (children : Children) (depth : Nat)
    (format : PlumetFormat) (isOmitted : String → Bool) : String :=
  match children with
  | .nil => ""
  | .cons key child rest =>
    (if key = "" ∨ key = "$" then ""
     else
       match child with
       | .skip => ""
       | .node c =>
         if isAtKey key then
           let body := atBody c selector depth format isOmitted
           if body = "" then "" else wrapAtRule key body depth format
         else
           let nextSelector := resolveSelector selector key
           if isOmitted nextSelector then ""
           else compileRuleNode nextSelector c depth format isOmitted) ++
      ruleChildren selector rest depth format isOmitted

/-- Body of source `compileAtRule` before wrapping: the at-rule node's own
declarations written bare at `depth + 1`, then the at-rule's children. -/
def atBody (style : Style) (parentSelector : String) (depth : Nat)
    (format : PlumetFormat) (isOmitted : String → Bool) : String :=
  match style with
  | .mk dollar children =>
    let declarations := collectDeclarations dollar
    (if declarations.isEmpty then ""
     else writeDeclarations declarations (depth + 1) format) ++
      atChildren parentSelector children depth format isOmitted

/-- The child loop of source `compileAtRule`: a nested at-rule is compiled
recursively at `depth + 1` with the SAME `parentSelector`; an ordinary key
resolves against `parentSelector` and, if not omitted, compiles at
`depth + 1`. -/
def atChildren (parentSelector : String) (children : Children) (depth : Nat)
    (format : PlumetFormat) (isOmitted : String → Bool) : String :=
  match children with
  | .nil => ""
  | .cons key child rest =>
    (if key = "" ∨ key = "$" then ""
     else
       match child with
       | .skip => ""
       | .node c =>
         if isAtKey key then
           wrapAtRule key (atBody c parentSelector (depth + 1) format isOmitted)
             (depth + 1) format
         else
           let nextSelector := resolveSelector parentSelector key
           if isOmitted nextSelector then ""
           else compileRuleNode nextSelector c (depth + 1) format isOmitted) ++
      atChildren parentSelector rest depth format isOmitted

end

/-- Source `compileAtRule`: its body (`atBody`) wrapped by `wrapAtRule`. -/
def compileAtRule (name : String) (style : Style) (parentSelector : String)
    (depth : Nat) (format : PlumetFormat) (isOmitted : String → Bool) : String :=
  wrapAtRule name (atBody style parentSelector depth format isOmitted) depth format

/-- Source `CompileOptions` object literal: optional `omitList`, optional
`format`. -/
structure CompileOptions where
  omitList : Option (List String)
  format : Option PlumetFormat

/-- Source `CompileOptionsInput`: a bare pattern array or an options
object (`undefined` is modelled by `Option` at the call sites). -/
inductive CompileOptionsInput where
  | arr (omitList : List String)
  | opts (options : CompileOptions)

/-- Source `normalizeOptions`. -/
def normalizeOptions : Option CompileOptionsInput → CompileOptions
  | some (.arr omitList) => ⟨some omitList, none⟩
  | some (.opts options) => options
  | none => ⟨none, none⟩

/-- The top-level key loop of source `compileStyle` (lines 304-321): an
at-rule child compiles with empty parent selector at depth 0 (pushed when
its body is non-empty, which `wrapAtRule` already encodes); an ordinary key
resolves against the empty parent and compiles at depth 0 unless omitted.
The root's `$` key is skipped, so a root declaration block emits nothing. -/
def compileStyleChildren (children : Children) (format : PlumetFormat)
    (isOmitted : String → Bool) : String :=
  match children with
  | .nil => ""
  | .cons key child rest =>
    (if key = "" ∨ key = "$" then ""
     else
       match child with
       | .skip => ""
       | .node c =>
         if isAtKey key then
           compileAtRule key c "" 0 format isOmitted
         else
           let selector := resolveSelector "" key
           if isOmitted selector then ""
           else compileRuleNode selector c 0 format isOmitted) ++
      compileStyleChildren rest format isOmitted

/-- Source `compileStyle`; a `none` style models the `if (!style)` guard. -/
def compileStyle (style : Option Style) (options : Option CompileOptionsInput) : String :=
  match style with
  | none => ""
  | some (.mk _dollar children) =>
    let normalized := normalizeOptions options
    let format := normalized.format.getD .default
    let isOmitted := createOmitMatcher normalized.omitList
    compileStyleChildren children format isOmitted

/-- Declarative matching relation of the pattern language the program
implements: `GMatch p s` holds when pattern `p` matches the ENTIRE string
`s`, the wildcard `*` matching any (possibly empty) sequence of
NON-line-terminator characters (ECMAScript `.` without the dotAll flag
never matches LF, CR, U+2028 or U+2029) and every other pattern character
matching exactly itself. -/
inductive GMatch : List Char → List Char → Prop where
  | nil : GMatch [] []
  | lit {c : Char} {p s : List Char} : c ≠ '*' → GMatch p s → GMatch (c :: p) (c :: s)
  | star_skip {p s : List Char} : GMatch p s → GMatch ('*' :: p) s
  | star_take {p s : List Char} {c : Char} :
      isLineTerm c = false → GMatch ('*' :: p) s → GMatch ('*' :: p) (c :: s)

/-- Modelled from claim C5's words: the wildcard matches ANY sequence of
characters (including line terminators).  This is the semantics the claim
asserts; the source's regex, built without the dotAll flag, does not
implement it (see the C5 counterexample). -/
inductive GMatchAny : List Char → List Char → Prop where
  | nil : GMatchAny [] []
  | lit {c : Char} {p s : List Char} :
      c ≠ '*' → GMatchAny p s → GMatchAny (c :: p) (c :: s)
  | star_skip {p s : List Char} : GMatchAny p s → GMatchAny ('*' :: p) s
  | star_take {p s : List Char} {c : Char} :
      GMatchAny ('*' :: p) s → GMatchAny ('*' :: p) (c :: s)

/-- Whitespace characters (for the format-equivalence-modulo-whitespace
property): space, newline, tab, carriage return. -/
def isWSChar (c : Char) : Bool :=
  c = ' ' || c = '\n' || c = '\t' || c = '\r'

/-- Remove every whitespace character from a string. -/
def stripWS (s : String) : String :=
  String.mk (s.data.filter (fun c => !isWSChar c))

mutual

/-- Modelled from the spec (§4.5 step 2, at-rule branch): the body of an
at-rule collects the at-rule node's own declarations, rendered as bare
declarations with no selector wrapper, plus, for each of its children,
either a nested at-rule body (recursive, with the SAME outer selector) or a
fully compiled nested rule whose selector is resolved relative to the
CURRENT OUTER selector `outer` (never the at-rule's own key), skipping any
nested rule whose resolved selector is excluded. -/
def specAtRuleBody (outer : String) (style : Style) (depth : Nat)
    (format : PlumetFormat) (isOmitted : String → Bool) : String :=
  match style with
  | .mk dollar children =>
    let declarations := collectDeclarations dollar
    (if declarations.isEmpty then ""
     else writeDeclarations declarations (depth + 1) format) ++
      specAtRuleChildren outer children depth format isOmitted

/-- Child walk of the spec-modelled at-rule body (see `specAtRuleBody`). -/
def specAtRuleChildren (outer : String) (children : Children) (depth : Nat)
    (format : PlumetFormat) (isOmitted : String → Bool) : String :=
  match children with
  | .nil => ""
  | .cons key child rest =>
    (if key = "" ∨ key = "$" then ""
     else
       match child with
       | .skip => ""
       | .node c =>
         if isAtKey key then
           wrapAtRule key (specAtRuleBody outer c (depth + 1) format isOmitted)
             (depth + 1) format
         else
           let s := resolveSelector outer key
           if isOmitted s then ""
           else compileRuleNode s c (depth + 1) format isOmitted) ++
      specAtRuleChildren outer rest depth format isOmitted

end

/-- Source `kebabCase` WITH its cache (`kebabCache` in the source), the cache
modelled as an association list with newest entries first (so `Map.set` is
`cons`).  `if (cached) return cached` is JS truthiness: a cached EMPTY
string is recomputed (and re-stored), like a miss. -/
def kebabCaseC (cache : List (String × String)) (key : String) :
    String × List (String × String) :=
  match cache.lookup key with
  | some cached =>
    if cached ≠ "" then (cached, cache)
    else (kebabCase key, (key, kebabCase key) :: cache)
  | none => (kebabCase key, (key, kebabCase key) :: cache)

/-- Loop of source `collectDeclarations` threading the kebab-case cache. -/
def collectDeclarationsGoC (props : List (String × Option String))
    (cache : List (String × String)) :
    List (String × String) × List (String × String) :=
  match props with
  | [] => ([], cache)
  | (k, v) :: rest =>
    match v with
    | none => collectDeclarationsGoC rest cache
    | some s =>
      let r := kebabCaseC cache k
      let t := collectDeclarationsGoC rest r.2
      ((r.1, s) :: t.1, t.2)

/-- Source `collectDeclarations` threading the kebab-case cache. -/
def collectDeclarationsC (props : Option (List (String × Option String)))
    (cache : List (String × String)) :
    List (String × String) × List (String × String) :=
  match props with
  | none => ([], cache)
  | some l => collectDeclarationsGoC l cache

mutual

/-- `compileRuleNode` threading the process-wide kebab-case cache state. -/
def compileRuleNodeC (selector : String) (style : Style) (depth : Nat)
    (format : PlumetFormat) (isOmitted : String → Bool)
    (cache : List (String × String)) : String × List (String × String) :=
  match style with
  | .mk dollar children =>
    let r := collectDeclarationsC dollar cache
    let head := if r.1.isEmpty then "" else writeRule selector r.1 depth format
    let t := ruleChildrenC selector children depth format isOmitted r.2
    (head ++ t.1, t.2)

/-- `ruleChildren` threading the kebab-case cache state. -/
def ruleChildrenC (selector : String) (children : Children) (depth : Nat)
    (format : PlumetFormat) (isOmitted : String → Bool)
    (cache : List (String × String)) : String × List (String × String) :=
  match children with
  | .nil => ("", cache)
  | .cons key child rest =>
    let r :=
      (if key = "" ∨ key = "$" then ("", cache)
       else
         match child with
         | .skip => ("", cache)
         | .node c =>
           if isAtKey key then
             let b := atBodyC c selector depth format isOmitted cache
             (if b.1 = "" then "" else wrapAtRule key b.1 depth format, b.2)
           else
             let nextSelector := resolveSelector selector key
             if isOmitted nextSelector then ("", cache)
             else compileRuleNodeC nextSelector c depth format isOmitted cache)
    let t := ruleChildrenC selector rest depth format isOmitted r.2
    (r.1 ++ t.1, t.2)

/-- `atBody` threading the kebab-case cache state. -/
def atBodyC (style : Style) (parentSelector : String) (depth : Nat)
    (format : PlumetFormat) (isOmitted : String → Bool)
    (cache : List (String × String)) : String × List (String × String) :=
  match style with
  | .mk dollar children =>
    let r := collectDeclarationsC dollar cache
    let head :=
      if r.1.isEmpty then "" else writeDeclarations r.1 (depth + 1) format
    let t := atChildrenC parentSelector children depth format isOmitted r.2
    (head ++ t.1, t.2)

/-- `atChildren` threading the kebab-case cache state. -/
def atChildrenC (parentSelector : String) (children : Children) (depth : Nat)
    (format : PlumetFormat) (isOmitted : String → Bool)
    (cache : List (String × String)) : String × List (String × String) :=
  match children with
  | .nil => ("", cache)
  | .cons key child rest =>
    let r :=
      (if key = "" ∨ key = "$" then ("", cache)
       else
         match child with
         | .skip => ("", cache)
         | .node c =>
           if isAtKey key then
             let b := atBodyC c parentSelector (depth + 1) format isOmitted cache
             (wrapAtRule key b.1 (depth + 1) format, b.2)
           else
             let nextSelector := resolveSelector parentSelector key
             if isOmitted nextSelector then ("", cache)
             else compileRuleNodeC nextSelector c (depth + 1) format isOmitted cache)
    let t := atChildrenC parentSelector rest depth format isOmitted r.2
    (r.1 ++ t.1, t.2)

end

/-- Top-level key loop of `compileStyle` threading the kebab-case cache. -/
def compileStyleChildrenC (children : Children) (format : PlumetFormat)
    (isOmitted : String → Bool) (cache : List (String × String)) :
    String × List (String × String) :=
  match children with
  | .nil => ("", cache)
  | .cons key child rest =>
    let r :=
      (if key = "" ∨ key = "$" then ("", cache)
       else
         match child with
         | .skip => ("", cache)
         | .node c =>
           if isAtKey key then
             let b := atBodyC c "" 0 format isOmitted cache
             (wrapAtRule key b.1 0 format, b.2)
           else
             let selector := resolveSelector "" key
             if isOmitted selector then ("", cache)
             else compileRuleNodeC selector c 0 format isOmitted cache)
    let t := compileStyleChildrenC rest format isOmitted r.2
    (r.1 ++ t.1, t.2)

/-- Source `compileStyle` threading the kebab-case cache: the compile result
together with the cache state left behind. -/
def compileStyleC (style : Option Style) (options : Option CompileOptionsInput)
    (cache : List (String × String)) : String × List (String × String) :=
  match style with
  | none => ("", cache)
  | some (.mk _dollar children) =>
    let normalized := normalizeOptions options
    let format := normalized.format.getD .default
    let isOmitted := createOmitMatcher normalized.omitList
    compileStyleChildrenC children format isOmitted cache

/-- A cache state is valid when every stored entry is the kebab-case of its
key — the invariant the process-wide cache always satisfies. -/
def validCache (cache : List (String × String)) : Prop :=
  ∀ p ∈ cache, p.2 = kebabCase p.1

/-- Input of spec Scenario 2 (claim C1). -/
def styleC1 : Style :=
  .mk none
    (.cons "@media (max-width: 600px)"
      (.node (.mk none
        (.cons "#app" (.node (.mk (some [("color", some "red")]) .nil)) .nil)))
      .nil)

/-- A parent rule with a nested ordinary rule child (claim C7). -/
def styleC7 : Style :=
  .mk none
    (.cons "#a"
      (.node (.mk (some [("color", some "red")])
        (.cons ".b" (.node (.mk (some [("color", some "blue")]) .nil)) .nil)))
      .nil)

/-- A rule whose single declaration value contains a space (claim C8). -/
def styleC8 : Style :=
  .mk none
    (.cons "#app" (.node (.mk (some [("margin", some "0 auto")]) .nil)) .nil)

/-- A rule with a camel-case property, exercising the kebab cache (C9). -/
def styleC9 : Style :=
  .mk none
    (.cons "#app"
      (.node (.mk
        (some [("backgroundColor", some "black"), ("color", some "red")]) .nil))
      .nil)

/-- An at-rule wrapping one rule (claim C10). -/
def styleC10 : Style :=
  .mk none
    (.cons "@media (max-width: 600px)"
      (.node (.mk none
        (.cons "#app" (.node (.mk (some [("color", some "red")]) .nil)) .nil)))
      .nil)

theorem data_empty : ("" : String).data = [] := rfl

theorem append_eq_empty_iff (a b : String) : a ++ b = "" ↔ a = "" ∧ b = "" := by
  rw [String.ext_iff, String.ext_iff, String.ext_iff]
  simp [String.data_append, data_empty]

theorem empty_append (s : String) : "" ++ s = s := by
  rw [String.ext_iff]
  simp [String.data_append, data_empty]

theorem concatMap_eq_foldr (f : α → String) (l : List α) :
    concatMap f l = (l.map f).foldr (· ++ ·) "" := by
  induction l with
  | nil => rfl
  | cons a as ih => simp [concatMap, ih]

/-- C1: for the input style tree
`{"@media (max-width: 600px)": {"#app": {$: {color: "red"}}}}` compiled with
the default format and no exclusions, `compileStyle` returns exactly
`"@media (max-width: 600px){#app{color:red;}\n}\n"`: the nested rule is
rendered with its trailing newline inside the at-rule body, the wrapper is
closed with `"}"` and one trailing newline. -/
theorem claim_C1 :
    compileStyle (some styleC1) none =
      "@media (max-width: 600px)\x7b#app\x7bcolor:red;\x7d\n\x7d\n" := by
  decide

/-- C3: the selector resolver satisfies the five composition laws of the
spec, and in general, for every parent string and every key containing at
least one `&`, every occurrence of `&` is replaced by the parent (the empty
string when the parent is empty) with no joining character added. -/
theorem claim_C3 :
    resolveSelector "" "a" = "a" ∧
    resolveSelector "#app" "a" = "#app a" ∧
    resolveSelector "#app" ":hover" = "#app:hover" ∧
    resolveSelector ".btn" "&.primary" = ".btn.primary" ∧
    resolveSelector "X" "&-&" = "X-X" ∧
    ∀ parent key, key.data.contains '&' = true →
      resolveSelector parent key =
        (key.data.map (fun c => if c = '&' then parent else String.singleton c)).foldr
          (· ++ ·) "" := by
  refine ⟨by decide, by decide, by decide, by decide, by decide, ?_⟩
  intro parent key h
  rw [resolveSelector, if_pos h, injectSelector, if_pos h, concatMap_eq_foldr]
  congr 1

/-- Witness for C3: the general replacement law applied at a concrete
parent and key. -/
theorem claim_C3_witness :
    resolveSelector "#nav" "&~&" =
      (("&~&").data.map
        (fun c => if c = '&' then "#nav" else String.singleton c)).foldr
        (· ++ ·) "" :=
  claim_C3.2.2.2.2.2 "#nav" "&~&" (by decide)

/-- C4: at every level of the walk, if an ordinary (non-at-rule) child's
fully resolved selector is reported excluded, the whole child entry —
whatever its subtree is — contributes nothing to the output: the walker
drops the entry without recursing into it. -/
theorem claim_C4 :
    (∀ (sel key : String) (c : Child) (rest : Children) (depth : Nat)
        (format : PlumetFormat) (om : String → Bool),
      isAtKey key = false → om (resolveSelector sel key) = true →
      ruleChildren sel (.cons key c rest) depth format om =
        ruleChildren sel rest depth format om) ∧
    (∀ (parentSel key : String) (c : Child) (rest : Children) (depth : Nat)
        (format : PlumetFormat) (om : String → Bool),
      isAtKey key = false → om (resolveSelector parentSel key) = true →
      atChildren parentSel (.cons key c rest) depth format om =
        atChildren parentSel rest depth format om) ∧
    (∀ (key : String) (c : Child) (rest : Children)
        (format : PlumetFormat) (om : String → Bool),
      isAtKey key = false → om (resolveSelector "" key) = true →
      compileStyleChildren (.cons key c rest) format om =
        compileStyleChildren rest format om) := by
  refine ⟨?_, ?_, ?_⟩
  · intro sel key c rest depth format om hAt hOm
    conv_lhs => rw [ruleChildren.eq_def]
    by_cases hk : key = "" ∨ key = "$"
    · simp [hk, empty_append]
    · cases c with
      | skip => simp [hk, empty_append]
      | node c' => simp [hk, hAt, hOm, empty_append]
  · intro parentSel key c rest depth format om hAt hOm
    conv_lhs => rw [atChildren.eq_def]
    by_cases hk : key = "" ∨ key = "$"
    · simp [hk, empty_append]
    · cases c with
      | skip => simp [hk, empty_append]
      | node c' => simp [hk, hAt, hOm, empty_append]
  · intro key c rest format om hAt hOm
    conv_lhs => rw [compileStyleChildren.eq_def]
    by_cases hk : key = "" ∨ key = "$"
    · simp [hk, empty_append]
    · cases c with
      | skip => simp [hk, empty_append]
      | node c' => simp [hk, hAt, hOm, empty_append]

/-- Witness for C4: scenario 3's excluded `.sections` subtree (whose `a`
child would itself not match the pattern) contributes nothing. -/
theorem claim_C4_witness :
    ruleChildren "#app"
        (.cons ".sections"
          (.node (.mk (some [("display", some "grid")])
            (.cons "a" (.node (.mk (some [("color", some "blue")]) .nil)) .nil)))
          .nil)
        0 .default (createOmitMatcher (some ["#app .sections*"])) =
      ruleChildren "#app" .nil 0 .default
        (createOmitMatcher (some ["#app .sections*"])) :=
  claim_C4.1 "#app" ".sections" _ _ 0 .default _ (by decide) (by decide)

theorem gmatch_star_iff (ps : List Char) (s : List Char) :
    GMatch ('*' :: ps) s ↔ ∃ t ∈ starSuffixes s, GMatch ps t := by
  induction s with
  | nil =>
    constructor
    · intro h
      cases h with
      | star_skip h' => exact ⟨[], by simp [starSuffixes], h'⟩
    · rintro ⟨t, ht, hm⟩
      simp only [starSuffixes, List.mem_singleton] at ht
      subst ht
      exact .star_skip hm
  | cons c s' ih =>
    constructor
    · intro h
      cases h with
      | lit hne _ => exact absurd rfl hne
      | star_skip h' => exact ⟨c :: s', by rw [starSuffixes]; exact List.mem_cons_self _ _, h'⟩
      | star_take hterm h' =>
        obtain ⟨t, ht, hm⟩ := ih.mp h'
        refine ⟨t, ?_, hm⟩
        rw [starSuffixes, if_neg (by simp [hterm])]
        exact List.mem_cons_of_mem _ ht
    · rintro ⟨t, ht, hm⟩
      rw [starSuffixes] at ht
      rcases List.mem_cons.mp ht with h1 | h2
      · subst h1
        exact .star_skip hm
      · by_cases hterm : isLineTerm c = true
        · rw [if_pos hterm] at h2
          cases h2
        · rw [if_neg hterm] at h2
          exact .star_take (by simpa using hterm) (ih.mpr ⟨t, h2, hm⟩)

theorem globMatchAux_nil_eq (s : List Char) : globMatchAux [] s = s.isEmpty := by
  rw [globMatchAux.eq_def]

theorem globMatchAux_cons_eq (pc : Char) (ps s : List Char) :
    globMatchAux (pc :: ps) s =
      if pc = '*' then (starSuffixes s).any (fun t => globMatchAux ps t)
      else
        match s with
        | [] => false
        | c :: s' => pc == c && globMatchAux ps s' := by
  rw [globMatchAux.eq_def]

theorem globMatchAux_iff (p : List Char) : ∀ s, globMatchAux p s = true ↔ GMatch p s := by
  induction p with
  | nil =>
    intro s
    cases s with
    | nil =>
      rw [globMatchAux_nil_eq]
      simp only [List.isEmpty_nil]
      exact ⟨fun _ => .nil, fun _ => trivial⟩
    | cons c s' =>
      rw [globMatchAux_nil_eq]
      simp only [List.isEmpty_cons]
      constructor
      · intro h; exact absurd h (by decide)
      · intro h; cases h
  | cons pc ps ih =>
    intro s
    by_cases hstar : pc = '*'
    · subst hstar
      rw [globMatchAux_cons_eq, if_pos rfl]
      simp only [List.any_eq_true, ih, gmatch_star_iff]
    · cases s with
      | nil =>
        rw [globMatchAux_cons_eq, if_neg hstar]
        constructor
        · intro h; simp at h
        · intro h
          cases h with
          | star_skip h' => exact absurd rfl hstar
      | cons c s' =>
        rw [globMatchAux_cons_eq, if_neg hstar]
        simp only [Bool.and_eq_true, beq_iff_eq, ih]
        constructor
        · rintro ⟨rfl, hm⟩; exact .lit hstar hm
        · intro h
          cases h with
          | lit hne hm => exact ⟨rfl, hm⟩
          | star_skip h' => exact absurd rfl hstar
          | star_take hterm h' => exact absurd rfl hstar

/-- Counterexample to C5 as stated: the claim's wildcard semantics
(`GMatchAny`: `*` matches ANY sequence of characters, including the empty
one) accepts pattern `a*b` against selector `"a\nb"`, but the compiled
predicate rejects it, because the source's `.*` is built without the
dotAll flag and ECMAScript `.` never matches a line terminator. -/
theorem claim_C5_counterexample :
    GMatchAny ("a*b").data ("a\nb").data ∧
    createOmitMatcher (some ["a*b"]) "a\nb" = false := by
  constructor
  · exact .lit (by decide) (.star_take (.star_skip (.lit (by decide) .nil)))
  · decide

/-- C5 (amended): the compiled exclusion predicate matches a resolved
selector iff at least one pattern matches the ENTIRE selector (anchored at
both ends, never a substring match — the relation `GMatch`), where `*` in
a pattern matches any sequence of NON-line-terminator characters including
the empty sequence (the source compiles `*` to `.*` with no dotAll flag,
and ECMAScript `.` excludes LF, CR, U+2028, U+2029) and every other
character is matched literally; with an empty or absent pattern list the
predicate is constantly false. -/
theorem claim_C5 :
    (∀ (pats : List String) (sel : String),
      createOmitMatcher (some pats) sel = true ↔
        ∃ g ∈ pats, GMatch g.data sel.data) ∧
    (∀ sel, createOmitMatcher (some []) sel = false) ∧
    (∀ sel, createOmitMatcher none sel = false) := by
  refine ⟨?_, fun _ => rfl, fun _ => rfl⟩
  intro pats sel
  cases pats with
  | nil => simp [createOmitMatcher]
  | cons g gs =>
    simp [createOmitMatcher, globMatch, List.any_eq_true, globMatchAux_iff]

/-- Witness for C5: the wildcard pattern of the repository's own glob test
matches a longer selector whole-string. -/
theorem claim_C5_witness :
    createOmitMatcher (some ["#app .socket*"]) "#app .socket-secondary" = true :=
  (claim_C5.1 ["#app .socket*"] "#app .socket-secondary").mpr
    ⟨"#app .socket*", by simp, (globMatchAux_iff _ _).mp (by decide)⟩

/-- C6: a property with an absent value never survives collection; a block
that is absent or all-absent collects to nothing; a node whose collected
declarations are empty renders no rule of its own (not even empty braces);
an at-rule whose composed body is empty emits nothing. -/
theorem claim_C6 :
    (∀ (k : String) (rest : List (String × Option String)),
      collectDeclarations (some ((k, none) :: rest)) =
        collectDeclarations (some rest)) ∧
    (collectDeclarations none = []) ∧
    (∀ props : List (String × Option String), (∀ p ∈ props, p.2 = none) →
      collectDeclarations (some props) = []) ∧
    (∀ (sel : String) (dollar : Option (List (String × Option String)))
        (ch : Children) (depth : Nat) (format : PlumetFormat) (om : String → Bool),
      collectDeclarations dollar = [] →
      compileRuleNode sel (.mk dollar ch) depth format om =
        ruleChildren sel ch depth format om) ∧
    (∀ (name : String) (style : Style) (parentSel : String) (depth : Nat)
        (format : PlumetFormat) (om : String → Bool),
      atBody style parentSel depth format om = "" →
      compileAtRule name style parentSel depth format om = "") := by
  refine ⟨?_, rfl, ?_, ?_, ?_⟩
  · intro k rest
    simp [collectDeclarations]
  · intro props h
    induction props with
    | nil => rfl
    | cons p rest ih =>
      have hp : p.2 = none := h p (by simp)
      simp only [collectDeclarations, List.filterMap_cons, hp, Option.map_none']
      have := ih (fun q hq => h q (by simp [hq]))
      simpa [collectDeclarations] using this
  · intro sel dollar ch depth format om h
    conv_lhs => rw [compileRuleNode.eq_def]
    simp [h, empty_append]
  · intro name style parentSel depth format om h
    rw [compileAtRule, h, wrapAtRule, if_pos rfl]

/-- Witness for C6: a block whose only value is absent renders no rule. -/
theorem claim_C6_witness :
    compileRuleNode "#app" (.mk (some [("border", none)]) .nil) 0 .default
        (createOmitMatcher none) =
      ruleChildren "#app" .nil 0 .default (createOmitMatcher none) :=
  claim_C6.2.2.2.1 "#app" (some [("border", none)]) .nil 0 .default _ (by decide)

/-- Counterexample to C7 as stated: in the `pretty` format the nested rule
`#a .b` is NOT indented one level deeper than its parent — the source
passes `depth` unchanged when descending into an ordinary nested rule
child, and the repository's own test asserts the flat indentation. -/
theorem claim_C7_counterexample :
    compileStyle (some styleC7) (some (.opts ⟨none, some .pretty⟩)) =
      "#a \x7b\n  color: red;\n\x7d\n#a .b \x7b\n  color: blue;\n\x7d\n" ∧
    compileStyle (some styleC7) (some (.opts ⟨none, some .pretty⟩)) ≠
      "#a \x7b\n  color: red;\n\x7d\n  #a .b \x7b\n    color: blue;\n  \x7d\n" := by
  constructor
  · decide
  · decide

/-- C7 (amended): when the walker descends from a rule node into an
ordinary (non-at-rule, non-excluded) nested rule child, the child is
compiled at the SAME nesting depth as its parent — so in `pretty` format a
nested rule's lines carry the same indentation as its parent's; only
at-rule bodies add an indentation level. -/
theorem claim_C7 :
    ∀ (sel key : String) (c : Style) (rest : Children) (depth : Nat)
      (format : PlumetFormat) (om : String → Bool),
    key ≠ "" → key ≠ "$" → isAtKey key = false →
    om (resolveSelector sel key) = false →
    ruleChildren sel (.cons key (.node c) rest) depth format om =
      compileRuleNode (resolveSelector sel key) c depth format om ++
        ruleChildren sel rest depth format om := by
  intro sel key c rest depth format om h1 h2 h3 h4
  conv_lhs => rw [ruleChildren.eq_def]
  simp [h1, h2, h3, h4]

/-- Witness for C7 (amended): the nested `.b` rule under `#a` compiles at
depth 0, the parent's depth. -/
theorem claim_C7_witness :
    ruleChildren "#a"
        (.cons ".b" (.node (.mk (some [("color", some "blue")]) .nil)) .nil)
        0 .pretty (createOmitMatcher none) =
      compileRuleNode (resolveSelector "#a" ".b")
          (.mk (some [("color", some "blue")]) .nil) 0 .pretty
          (createOmitMatcher none) ++
        ruleChildren "#a" .nil 0 .pretty (createOmitMatcher none) :=
  claim_C7 "#a" ".b" _ _ 0 .pretty _ (by decide) (by decide) (by decide) (by decide)

theorem wrapAtRule_eq_empty_iff (name body : String) (depth : Nat)
    (format : PlumetFormat) : wrapAtRule name body depth format = "" ↔ body = "" := by
  by_cases hb : body = ""
  · subst hb
    simp [wrapAtRule]
  · rw [wrapAtRule, if_neg hb]
    constructor
    · intro h
      exfalso
      by_cases hf : format = .pretty
      · rw [if_pos hf] at h
        rcases (append_eq_empty_iff _ _).mp h with ⟨_, h4⟩
        exact absurd h4 (by decide)
      · rw [if_neg hf] at h
        rcases (append_eq_empty_iff _ _).mp h with ⟨h1, _⟩
        rcases (append_eq_empty_iff _ _).mp h1 with ⟨_, h2⟩
        exact absurd h2 (by decide)
    · intro h
      exact absurd h hb

/-- C10: an at-rule key is never itself tested against the exclusion
predicate — at the top level, inside rule nodes, and inside other at-rules
the at-rule child's contribution is its wrapped body, with no omission test
on the key; the wrapper disappears exactly when its composed body is empty;
concretely, patterns equal to or globbing the at-rule name do not suppress
the wrapper. -/
theorem claim_C10 :
    (∀ (sel key : String) (c : Style) (rest : Children) (depth : Nat)
        (format : PlumetFormat) (om : String → Bool),
      key ≠ "" → key ≠ "$" → isAtKey key = true →
      ruleChildren sel (.cons key (.node c) rest) depth format om =
        wrapAtRule key (atBody c sel depth format om) depth format ++
          ruleChildren sel rest depth format om) ∧
    (∀ (parentSel key : String) (c : Style) (rest : Children) (depth : Nat)
        (format : PlumetFormat) (om : String → Bool),
      key ≠ "" → key ≠ "$" → isAtKey key = true →
      atChildren parentSel (.cons key (.node c) rest) depth format om =
        wrapAtRule key (atBody c parentSel (depth + 1) format om)
            (depth + 1) format ++
          atChildren parentSel rest depth format om) ∧
    (∀ (key : String) (c : Style) (rest : Children)
        (format : PlumetFormat) (om : String → Bool),
      key ≠ "" → key ≠ "$" → isAtKey key = true →
      compileStyleChildren (.cons key (.node c) rest) format om =
        wrapAtRule key (atBody c "" 0 format om) 0 format ++
          compileStyleChildren rest format om) ∧
    (∀ (name body : String) (depth : Nat) (format : PlumetFormat),
      wrapAtRule name body depth format = "" ↔ body = "") ∧
    compileStyle (some styleC10)
        (some (.arr ["@media (max-width: 600px)", "@media*"])) =
      "@media (max-width: 600px)\x7b#app\x7bcolor:red;\x7d\n\x7d\n" := by
  refine ⟨?_, ?_, ?_, wrapAtRule_eq_empty_iff, by decide⟩
  · intro sel key c rest depth format om h1 h2 h3
    conv_lhs => rw [ruleChildren.eq_def]
    simp only [h1, h2, h3]
    by_cases hb : atBody c sel depth format om = ""
    · simp [h1, h2, hb, wrapAtRule]
    · simp [h1, h2, hb]
  · intro parentSel key c rest depth format om h1 h2 h3
    conv_lhs => rw [atChildren.eq_def]
    simp [h1, h2, h3]
  · intro key c rest format om h1 h2 h3
    conv_lhs => rw [compileStyleChildren.eq_def]
    simp [h1, h2, h3, compileAtRule]

/-- Witness for C10: a pattern list containing both the exact at-rule key
and a glob over it still leaves the at-rule contribution in place. -/
theorem claim_C10_witness :
    ruleChildren "#app"
        (.cons "@media print" (.node (.mk (some [("color", some "red")]) .nil)) .nil)
        0 .default (createOmitMatcher (some ["@media print", "@media*"])) =
      wrapAtRule "@media print"
          (atBody (.mk (some [("color", some "red")]) .nil) "#app" 0 .default
            (createOmitMatcher (some ["@media print", "@media*"])))
          0 .default ++
        ruleChildren "#app" .nil 0 .default
          (createOmitMatcher (some ["@media print", "@media*"])) :=
  claim_C10.1 "#app" "@media print" _ _ 0 .default _ (by decide) (by decide)
    (by decide)

mutual

theorem specAtRuleBody_eq : ∀ (style : Style) (outer : String) (depth : Nat)
    (format : PlumetFormat) (om : String → Bool),
    specAtRuleBody outer style depth format om = atBody style outer depth format om
  | .mk dollar children, outer, depth, format, om => by
    rw [specAtRuleBody.eq_def, atBody.eq_def]
    dsimp only
    rw [specAtRuleChildren_eq children outer depth format om]

theorem specAtRuleChildren_eq : ∀ (children : Children) (outer : String) (depth : Nat)
    (format : PlumetFormat) (om : String → Bool),
    specAtRuleChildren outer children depth format om =
      atChildren outer children depth format om
  | .nil, _, _, _, _ => rfl
  | .cons key child rest, outer, depth, format, om => by
    rw [specAtRuleChildren.eq_def, atChildren.eq_def]
    dsimp only
    rw [specAtRuleChildren_eq rest outer depth format om]
    cases child with
    | skip => rfl
    | node c =>
      by_cases hk : key = "" ∨ key = "$"
      · simp [hk]
      · by_cases ha : isAtKey key
        · simp only [hk, if_false, ha, if_true]
          rw [specAtRuleBody_eq c outer (depth + 1) format om]
        · simp [hk, ha]

end

/-- C2: for every style tree, a rule nested inside an at-rule node resolves
its selector relative to the selector current OUTSIDE the at-rule — as the
spec-modelled `specAtRuleBody` prescribes, through arbitrarily deep nesting
of at-rules (which pass the same outer selector down), with the at-rule's
own declarations rendered as bare declarations — both for the standalone
`compileAtRule` and for an at-rule child met inside a rule node's walk. -/
theorem claim_C2 :
    (∀ (name : String) (style : Style) (parentSelector : String) (depth : Nat)
        (format : PlumetFormat) (om : String → Bool),
      compileAtRule name style parentSelector depth format om =
        wrapAtRule name (specAtRuleBody parentSelector style depth format om)
          depth format) ∧
    (∀ (sel key : String) (c : Style) (rest : Children) (depth : Nat)
        (format : PlumetFormat) (om : String → Bool),
      key ≠ "" → key ≠ "$" → isAtKey key = true →
      ruleChildren sel (.cons key (.node c) rest) depth format om =
        wrapAtRule key (specAtRuleBody sel c depth format om) depth format ++
          ruleChildren sel rest depth format om) := by
  constructor
  · intro name style parentSelector depth format om
    rw [compileAtRule, specAtRuleBody_eq]
  · intro sel key c rest depth format om h1 h2 h3
    rw [specAtRuleBody_eq]
    conv_lhs => rw [ruleChildren.eq_def]
    simp only [h1, h2, h3]
    by_cases hb : atBody c sel depth format om = ""
    · simp [h1, h2, hb, wrapAtRule]
    · simp [h1, h2, hb]

/-- Witness for C2: an at-rule child inside a rule node at selector `#out`
renders as the wrapper around the spec-modelled body computed with the
outer selector `#out`. -/
theorem claim_C2_witness :
    ruleChildren "#out"
        (.cons "@media screen" (.node (.mk (some [("color", some "red")]) .nil)) .nil)
        2 .pretty (createOmitMatcher none) =
      wrapAtRule "@media screen"
          (specAtRuleBody "#out" (.mk (some [("color", some "red")]) .nil) 2 .pretty
            (createOmitMatcher none)) 2 .pretty ++
        ruleChildren "#out" .nil 2 .pretty (createOmitMatcher none) :=
  claim_C2.2 "#out" "@media screen" _ _ 2 .pretty _ (by decide) (by decide)
    (by decide)

theorem append_empty (s : String) : s ++ "" = s := by
  rw [String.ext_iff]
  simp [String.data_append, data_empty]

theorem string_append_assoc (a b c : String) : a ++ b ++ c = a ++ (b ++ c) := by
  rw [String.ext_iff]
  simp [String.data_append, List.append_assoc]

theorem stripWS_empty : stripWS "" = "" := rfl

theorem stripWS_append (a b : String) : stripWS (a ++ b) = stripWS a ++ stripWS b := by
  rw [String.ext_iff]
  simp [stripWS, String.data_append, List.filter_append]

theorem stripWS_concatMap (g : α → String) (l : List α) :
    stripWS (concatMap g l) = concatMap (fun a => stripWS (g a)) l := by
  induction l with
  | nil => rfl
  | cons a as ih => simp [concatMap, stripWS_append, ih]

theorem stripWS_indentStr (n : Nat) : stripWS (indentStr n) = "" := by
  induction n with
  | zero => rfl
  | succ n ih =>
    rw [indentStr, stripWS_append, ih]
    decide

theorem stripWS_indent (d : Nat) (f : PlumetFormat) : stripWS (indent d f) = "" := by
  cases f <;> simp [indent, stripWS_indentStr, stripWS_empty]

theorem stripWS_l1 : stripWS " \x7b\n" = "\x7b" := rfl

theorem stripWS_l2 : stripWS "\x7d\n" = "\x7d" := rfl

theorem stripWS_l3 : stripWS ": " = ":" := rfl

theorem stripWS_l4 : stripWS ";\n" = ";" := rfl

theorem stripWS_l5 : stripWS "\n" = "" := rfl

theorem stripWS_l6 : stripWS "\x7b" = "\x7b" := rfl

theorem stripWS_l7 : stripWS "\x7d" = "\x7d" := rfl

theorem stripWS_l8 : stripWS ":" = ":" := rfl

theorem stripWS_l9 : stripWS ";" = ";" := rfl

theorem stripWS_writeRule (sel : String) (decls : List (String × String)) (d : Nat)
    (f : PlumetFormat) :
    stripWS (writeRule sel decls d f) =
      stripWS sel ++ "\x7b" ++
        concatMap (fun p => stripWS p.1 ++ ":" ++ stripWS p.2 ++ ";") decls ++
        "\x7d" := by
  by_cases hf : f = .pretty
  · subst hf
    rw [writeRule, if_pos rfl]
    simp only [stripWS_append, stripWS_indent, stripWS_l1, stripWS_l2, stripWS_concatMap,
      stripWS_l3, stripWS_l4, empty_append, append_empty, string_append_assoc]
  · rw [writeRule, if_neg hf]
    have hnl : stripWS (if f = .default then "\n" else "") = "" := by
      by_cases hd : f = .default <;> simp [hd, stripWS_l5, stripWS_empty]
    simp only [stripWS_append, stripWS_l6, stripWS_l7, stripWS_l8, stripWS_l9,
      stripWS_concatMap, hnl, empty_append, append_empty, string_append_assoc]

theorem stripWS_writeDeclarations (decls : List (String × String)) (d : Nat)
    (f : PlumetFormat) :
    stripWS (writeDeclarations decls d f) =
      concatMap (fun p => stripWS p.1 ++ ":" ++ stripWS p.2 ++ ";") decls := by
  by_cases hf : f = .pretty
  · subst hf
    rw [writeDeclarations, if_pos rfl]
    simp only [stripWS_concatMap, stripWS_append, stripWS_indent, stripWS_l3, stripWS_l4,
      empty_append, append_empty, string_append_assoc]
  · rw [writeDeclarations, if_neg hf]
    simp only [stripWS_concatMap, stripWS_append, stripWS_l8, stripWS_l9,
      empty_append, append_empty, string_append_assoc]

theorem stripWS_wrapAtRule (name body : String) (d : Nat) (f : PlumetFormat)
    (hb : body ≠ "") :
    stripWS (wrapAtRule name body d f) =
      stripWS name ++ "\x7b" ++ stripWS body ++ "\x7d" := by
  by_cases hf : f = .pretty
  · rw [wrapAtRule, if_neg hb, if_pos hf]
    simp only [stripWS_append, stripWS_indent, stripWS_l1, stripWS_l2,
      empty_append, append_empty, string_append_assoc]
  · rw [wrapAtRule, if_neg hb, if_neg hf]
    have hnl : stripWS (if f = .default then "\n" else "") = "" := by
      by_cases hd : f = .default <;> simp [hd, stripWS_l5, stripWS_empty]
    simp only [stripWS_append, stripWS_l6, stripWS_l7, hnl,
      empty_append, append_empty, string_append_assoc]

theorem writeRule_ne_empty (sel : String) (decls : List (String × String)) (d : Nat)
    (f : PlumetFormat) : writeRule sel decls d f ≠ "" := by
  intro h
  by_cases hf : f = .pretty
  · rw [writeRule, if_pos hf] at h
    rcases (append_eq_empty_iff _ _).mp h with ⟨_, h2⟩
    exact absurd h2 (by decide)
  · rw [writeRule, if_neg hf] at h
    rcases (append_eq_empty_iff _ _).mp h with ⟨h1, _⟩
    rcases (append_eq_empty_iff _ _).mp h1 with ⟨_, h2⟩
    exact absurd h2 (by decide)

theorem writeDeclarations_cons_ne_empty (p : String × String)
    (ps : List (String × String)) (d : Nat) (f : PlumetFormat) :
    writeDeclarations (p :: ps) d f ≠ "" := by
  intro h
  by_cases hf : f = .pretty
  · rw [writeDeclarations, if_pos hf, concatMap] at h
    rcases (append_eq_empty_iff _ _).mp h with ⟨h1, _⟩
    rcases (append_eq_empty_iff _ _).mp h1 with ⟨_, h2⟩
    exact absurd h2 (by decide)
  · rw [writeDeclarations, if_neg hf, concatMap] at h
    rcases (append_eq_empty_iff _ _).mp h with ⟨h1, _⟩
    rcases (append_eq_empty_iff _ _).mp h1 with ⟨_, h2⟩
    exact absurd h2 (by decide)

mutual

theorem compileRuleNode_empty_iff : ∀ (style : Style) (sel : String) (d1 d2 : Nat)
    (f1 f2 : PlumetFormat) (om : String → Bool),
    (compileRuleNode sel style d1 f1 om = "") ↔ (compileRuleNode sel style d2 f2 om = "")
  | .mk dollar children, sel, d1, d2, f1, f2, om => by
    rw [compileRuleNode.eq_def, compileRuleNode.eq_def]
    dsimp only
    rw [append_eq_empty_iff, append_eq_empty_iff]
    apply and_congr
    · by_cases he : (collectDeclarations dollar).isEmpty
      · simp [he]
      · simp only [he, if_false]
        exact iff_of_false (writeRule_ne_empty _ _ _ _) (writeRule_ne_empty _ _ _ _)
    · exact ruleChildren_empty_iff children sel d1 d2 f1 f2 om

theorem ruleChildren_empty_iff : ∀ (children : Children) (sel : String) (d1 d2 : Nat)
    (f1 f2 : PlumetFormat) (om : String → Bool),
    (ruleChildren sel children d1 f1 om = "") ↔ (ruleChildren sel children d2 f2 om = "")
  | .nil, _, _, _, _, _, _ => Iff.rfl
  | .cons key child rest, sel, d1, d2, f1, f2, om => by
    rw [ruleChildren.eq_def, ruleChildren.eq_def]
    dsimp only
    rw [append_eq_empty_iff, append_eq_empty_iff]
    apply and_congr
    · by_cases hk : key = "" ∨ key = "$"
      · simp [hk]
      · simp only [hk, if_false]
        cases child with
        | skip => exact Iff.rfl
        | node c =>
          by_cases ha : isAtKey key = true
          · simp only [ha, if_true]
            by_cases hb : atBody c sel d1 f1 om = ""
            · have hb2 : atBody c sel d2 f2 om = "" :=
                (atBody_empty_iff c sel d1 d2 f1 f2 om).mp hb
              simp [hb, hb2]
            · have hb2 : ¬atBody c sel d2 f2 om = "" := fun h =>
                hb ((atBody_empty_iff c sel d2 d1 f2 f1 om).mp h)
              simp only [hb, hb2, if_false]
              exact iff_of_false
                (fun h => hb ((wrapAtRule_eq_empty_iff _ _ _ _).mp h))
                (fun h => hb2 ((wrapAtRule_eq_empty_iff _ _ _ _).mp h))
          · simp only [ha, if_false]
            by_cases ho : om (resolveSelector sel key) = true
            · simp [ho]
            · simp only [ho, if_false]
              exact compileRuleNode_empty_iff c (resolveSelector sel key) d1 d2 f1 f2 om
    · exact ruleChildren_empty_iff rest sel d1 d2 f1 f2 om

theorem atBody_empty_iff : ∀ (style : Style) (parentSel : String) (d1 d2 : Nat)
    (f1 f2 : PlumetFormat) (om : String → Bool),
    (atBody style parentSel d1 f1 om = "") ↔ (atBody style parentSel d2 f2 om = "")
  | .mk dollar children, parentSel, d1, d2, f1, f2, om => by
    rw [atBody.eq_def, atBody.eq_def]
    dsimp only
    rw [append_eq_empty_iff, append_eq_empty_iff]
    apply and_congr
    · by_cases he : (collectDeclarations dollar).isEmpty
      · simp [he]
      · rw [if_neg he, if_neg he]
        cases hd : collectDeclarations dollar with
        | nil => rw [hd] at he; exact absurd rfl he
        | cons p ps =>
          exact iff_of_false (writeDeclarations_cons_ne_empty _ _ _ _)
            (writeDeclarations_cons_ne_empty _ _ _ _)
    · exact atChildren_empty_iff children parentSel d1 d2 f1 f2 om

theorem atChildren_empty_iff : ∀ (children : Children) (parentSel : String) (d1 d2 : Nat)
    (f1 f2 : PlumetFormat) (om : String → Bool),
    (atChildren parentSel children d1 f1 om = "") ↔ (atChildren parentSel children d2 f2 om = "")
  | .nil, _, _, _, _, _, _ => Iff.rfl
  | .cons key child rest, parentSel, d1, d2, f1, f2, om => by
    rw [atChildren.eq_def, atChildren.eq_def]
    dsimp only
    rw [append_eq_empty_iff, append_eq_empty_iff]
    apply and_congr
    · by_cases hk : key = "" ∨ key = "$"
      · simp [hk]
      · simp only [hk, if_false]
        cases child with
        | skip => exact Iff.rfl
        | node c =>
          by_cases ha : isAtKey key = true
          · simp only [ha, if_true]
            rw [wrapAtRule_eq_empty_iff, wrapAtRule_eq_empty_iff]
            exact atBody_empty_iff c parentSel (d1 + 1) (d2 + 1) f1 f2 om
          · simp only [ha, if_false]
            by_cases ho : om (resolveSelector parentSel key) = true
            · simp [ho]
            · simp only [ho, if_false]
              exact compileRuleNode_empty_iff c (resolveSelector parentSel key)
                (d1 + 1) (d2 + 1) f1 f2 om
    · exact atChildren_empty_iff rest parentSel d1 d2 f1 f2 om

end

mutual

theorem compileRuleNode_strip : ∀ (style : Style) (sel : String) (d1 d2 : Nat)
    (f1 f2 : PlumetFormat) (om : String → Bool),
    stripWS (compileRuleNode sel style d1 f1 om) =
      stripWS (compileRuleNode sel style d2 f2 om)
  | .mk dollar children, sel, d1, d2, f1, f2, om => by
    rw [compileRuleNode.eq_def, compileRuleNode.eq_def]
    dsimp only
    rw [stripWS_append, stripWS_append]
    rw [ruleChildren_strip children sel d1 d2 f1 f2 om]
    congr 1
    by_cases he : (collectDeclarations dollar).isEmpty
    · simp [he]
    · rw [if_neg he, if_neg he, stripWS_writeRule, stripWS_writeRule]

theorem ruleChildren_strip : ∀ (children : Children) (sel : String) (d1 d2 : Nat)
    (f1 f2 : PlumetFormat) (om : String → Bool),
    stripWS (ruleChildren sel children d1 f1 om) =
      stripWS (ruleChildren sel children d2 f2 om)
  | .nil, _, _, _, _, _, _ => rfl
  | .cons key child rest, sel, d1, d2, f1, f2, om => by
    rw [ruleChildren.eq_def, ruleChildren.eq_def]
    dsimp only
    rw [stripWS_append, stripWS_append]
    rw [ruleChildren_strip rest sel d1 d2 f1 f2 om]
    congr 1
    by_cases hk : key = "" ∨ key = "$"
    · simp [hk]
    · simp only [hk, if_false]
      cases child with
      | skip => rfl
      | node c =>
        by_cases ha : isAtKey key = true
        · simp only [ha, if_true]
          by_cases hb : atBody c sel d1 f1 om = ""
          · have hb2 : atBody c sel d2 f2 om = "" :=
              (atBody_empty_iff c sel d1 d2 f1 f2 om).mp hb
            simp [hb, hb2]
          · have hb2 : ¬atBody c sel d2 f2 om = "" := fun h =>
              hb ((atBody_empty_iff c sel d2 d1 f2 f1 om).mp h)
            simp only [hb, hb2, if_false]
            rw [stripWS_wrapAtRule _ _ _ _ hb, stripWS_wrapAtRule _ _ _ _ hb2,
              atBody_strip c sel d1 d2 f1 f2 om]
        · simp only [ha, if_false]
          by_cases ho : om (resolveSelector sel key) = true
          · simp [ho]
          · simp only [ho, if_false]
            exact compileRuleNode_strip c (resolveSelector sel key) d1 d2 f1 f2 om

theorem atBody_strip : ∀ (style : Style) (parentSel : String) (d1 d2 : Nat)
    (f1 f2 : PlumetFormat) (om : String → Bool),
    stripWS (atBody style parentSel d1 f1 om) = stripWS (atBody style parentSel d2 f2 om)
  | .mk dollar children, parentSel, d1, d2, f1, f2, om => by
    rw [atBody.eq_def, atBody.eq_def]
    dsimp only
    rw [stripWS_append, stripWS_append]
    rw [atChildren_strip children parentSel d1 d2 f1 f2 om]
    congr 1
    by_cases he : (collectDeclarations dollar).isEmpty
    · simp [he]
    · rw [if_neg he, if_neg he, stripWS_writeDeclarations, stripWS_writeDeclarations]

theorem atChildren_strip : ∀ (children : Children) (parentSel : String) (d1 d2 : Nat)
    (f1 f2 : PlumetFormat) (om : String → Bool),
    stripWS (atChildren parentSel children d1 f1 om) =
      stripWS (atChildren parentSel children d2 f2 om)
  | .nil, _, _, _, _, _, _ => rfl
  | .cons key child rest, parentSel, d1, d2, f1, f2, om => by
    rw [atChildren.eq_def, atChildren.eq_def]
    dsimp only
    rw [stripWS_append, stripWS_append]
    rw [atChildren_strip rest parentSel d1 d2 f1 f2 om]
    congr 1
    by_cases hk : key = "" ∨ key = "$"
    · simp [hk]
    · simp only [hk, if_false]
      cases child with
      | skip => rfl
      | node c =>
        by_cases ha : isAtKey key = true
        · simp only [ha, if_true]
          by_cases hb : atBody c parentSel (d1 + 1) f1 om = ""
          · have hb2 : atBody c parentSel (d2 + 1) f2 om = "" :=
              (atBody_empty_iff c parentSel (d1 + 1) (d2 + 1) f1 f2 om).mp hb
            simp [hb, hb2, wrapAtRule]
          · have hb2 : ¬atBody c parentSel (d2 + 1) f2 om = "" := fun h =>
              hb ((atBody_empty_iff c parentSel (d2 + 1) (d1 + 1) f2 f1 om).mp h)
            rw [stripWS_wrapAtRule _ _ _ _ hb, stripWS_wrapAtRule _ _ _ _ hb2,
              atBody_strip c parentSel (d1 + 1) (d2 + 1) f1 f2 om]
        · simp only [ha, if_false]
          by_cases ho : om (resolveSelector parentSel key) = true
          · simp [ho]
          · simp only [ho, if_false]
            exact compileRuleNode_strip c (resolveSelector parentSel key)
              (d1 + 1) (d2 + 1) f1 f2 om

end

theorem compileStyleChildren_strip : ∀ (children : Children) (f1 f2 : PlumetFormat)
    (om : String → Bool),
    stripWS (compileStyleChildren children f1 om) =
      stripWS (compileStyleChildren children f2 om)
  | .nil, _, _, _ => rfl
  | .cons key child rest, f1, f2, om => by
    rw [compileStyleChildren.eq_def, compileStyleChildren.eq_def]
    dsimp only
    rw [stripWS_append, stripWS_append]
    rw [compileStyleChildren_strip rest f1 f2 om]
    congr 1
    by_cases hk : key = "" ∨ key = "$"
    · simp [hk]
    · simp only [hk, if_false]
      cases child with
      | skip => rfl
      | node c =>
        by_cases ha : isAtKey key = true
        · simp only [ha, if_true]
          rw [compileAtRule, compileAtRule]
          by_cases hb : atBody c "" 0 f1 om = ""
          · have hb2 : atBody c "" 0 f2 om = "" :=
              (atBody_empty_iff c "" 0 0 f1 f2 om).mp hb
            simp [hb, hb2, wrapAtRule]
          · have hb2 : ¬atBody c "" 0 f2 om = "" := fun h =>
              hb ((atBody_empty_iff c "" 0 0 f2 f1 om).mp h)
            rw [stripWS_wrapAtRule _ _ _ _ hb, stripWS_wrapAtRule _ _ _ _ hb2,
              atBody_strip c "" 0 0 f1 f2 om]
        · simp only [ha, if_false]
          by_cases ho : om (resolveSelector "" key) = true
          · simp [ho]
          · simp only [ho, if_false]
            exact compileRuleNode_strip c (resolveSelector "" key) 0 0 f1 f2 om

/-- Counterexample to C8 as stated: for a declaration value containing a
space, removing all whitespace from the `pretty` output does NOT yield the
`minify` output (also not up to a trailing newline), because `minify`
preserves the space inside the value while stripping removes it. -/
theorem claim_C8_counterexample :
    (stripWS (compileStyle (some styleC8) (some (.opts ⟨none, some .pretty⟩))) ≠
      compileStyle (some styleC8) (some (.opts ⟨none, some .minify⟩))) ∧
    (stripWS (compileStyle (some styleC8) (some (.opts ⟨none, some .pretty⟩))) ≠
      compileStyle (some styleC8) (some (.opts ⟨none, some .minify⟩)) ++ "\n") ∧
    (stripWS (compileStyle (some styleC8) (some (.opts ⟨none, some .pretty⟩))) ++ "\n" ≠
      compileStyle (some styleC8) (some (.opts ⟨none, some .minify⟩))) := by
  refine ⟨by decide, by decide, by decide⟩

/-- C8 (amended): for every input style tree and exclusion list, removing
all whitespace characters from the `pretty` output yields the same
character sequence as removing all whitespace characters from the `minify`
output. -/
theorem claim_C8 :
    ∀ (style : Option Style) (omitList : Option (List String)),
      stripWS (compileStyle style (some (.opts ⟨omitList, some .pretty⟩))) =
        stripWS (compileStyle style (some (.opts ⟨omitList, some .minify⟩))) := by
  intro style omitList
  cases style with
  | none => rfl
  | some s =>
    cases s with
    | mk dollar children =>
      rw [compileStyle.eq_def, compileStyle.eq_def]
      dsimp only [normalizeOptions]
      exact compileStyleChildren_strip children .pretty .minify
        (createOmitMatcher omitList)

theorem lookup_mem {β : Type} (l : List (String × β)) (k : String) (v : β)
    (h : l.lookup k = some v) : (k, v) ∈ l := by
  induction l with
  | nil => simp [List.lookup] at h
  | cons p rest ih =>
    rw [List.lookup] at h
    by_cases hk : k == p.1
    · simp [hk] at h
      have hk2 : k = p.1 := by simpa using hk
      subst hk2
      cases p with
      | mk a b =>
        simp at h ⊢
        left
        exact h.symm
    · simp [hk] at h
      right
      exact ih h

theorem validCache_cons (cache : List (String × String)) (h : validCache cache)
    (k : String) : validCache ((k, kebabCase k) :: cache) := by
  intro p hp
  rcases List.mem_cons.mp hp with h1 | h2
  · subst h1; rfl
  · exact h p h2

theorem kebabCaseC_spec (cache : List (String × String)) (h : validCache cache)
    (k : String) :
    (kebabCaseC cache k).1 = kebabCase k ∧ validCache (kebabCaseC cache k).2 := by
  rw [kebabCaseC.eq_def]
  cases hl : cache.lookup k with
  | none => exact ⟨rfl, validCache_cons cache h k⟩
  | some v =>
    dsimp only
    by_cases hv : v ≠ ""
    · rw [if_pos hv]
      exact ⟨(h _ (lookup_mem cache k v hl)).symm ▸ rfl, h⟩
    · rw [if_neg hv]
      exact ⟨rfl, validCache_cons cache h k⟩

theorem collectDeclarationsGoC_spec : ∀ (props : List (String × Option String))
    (cache : List (String × String)), validCache cache →
    (collectDeclarationsGoC props cache).1 =
      props.filterMap (fun p => p.2.map (fun v => (kebabCase p.1, v))) ∧
    validCache (collectDeclarationsGoC props cache).2
  | [], cache, h => ⟨rfl, h⟩
  | (k, v) :: rest, cache, h => by
    rw [collectDeclarationsGoC.eq_def]
    dsimp only
    cases v with
    | none =>
      have ih := collectDeclarationsGoC_spec rest cache h
      exact ⟨by rw [ih.1]; simp [List.filterMap_cons], ih.2⟩
    | some s =>
      have hk := kebabCaseC_spec cache h k
      have ih := collectDeclarationsGoC_spec rest (kebabCaseC cache k).2 hk.2
      refine ⟨?_, ih.2⟩
      rw [hk.1, ih.1]
      simp [List.filterMap_cons]

theorem collectDeclarationsC_spec (props : Option (List (String × Option String)))
    (cache : List (String × String)) (h : validCache cache) :
    (collectDeclarationsC props cache).1 = collectDeclarations props ∧
    validCache (collectDeclarationsC props cache).2 := by
  cases props with
  | none => exact ⟨rfl, h⟩
  | some l =>
    have := collectDeclarationsGoC_spec l cache h
    exact ⟨this.1, this.2⟩

mutual

theorem compileRuleNodeC_spec : ∀ (style : Style) (sel : String) (depth : Nat)
    (format : PlumetFormat) (om : String → Bool) (cache : List (String × String)),
    validCache cache →
    (compileRuleNodeC sel style depth format om cache).1 =
      compileRuleNode sel style depth format om ∧
    validCache (compileRuleNodeC sel style depth format om cache).2
  | .mk dollar children, sel, depth, format, om, cache, h => by
    rw [compileRuleNodeC.eq_def, compileRuleNode.eq_def]
    dsimp only
    have hc := collectDeclarationsC_spec dollar cache h
    have ih := ruleChildrenC_spec children sel depth format om
      (collectDeclarationsC dollar cache).2 hc.2
    exact ⟨by rw [hc.1, ih.1], ih.2⟩

theorem ruleChildrenC_spec : ∀ (children : Children) (sel : String) (depth : Nat)
    (format : PlumetFormat) (om : String → Bool) (cache : List (String × String)),
    validCache cache →
    (ruleChildrenC sel children depth format om cache).1 =
      ruleChildren sel children depth format om ∧
    validCache (ruleChildrenC sel children depth format om cache).2
  | .nil, _, _, _, _, cache, h => ⟨rfl, h⟩
  | .cons key child rest, sel, depth, format, om, cache, h => by
    rw [ruleChildrenC.eq_def, ruleChildren.eq_def]
    dsimp only
    by_cases hk : key = "" ∨ key = "$"
    · have ih := ruleChildrenC_spec rest sel depth format om cache h
      simp only [hk, if_true]
      exact ⟨by rw [ih.1], ih.2⟩
    · simp only [hk, if_false]
      cases child with
      | skip =>
        have ih := ruleChildrenC_spec rest sel depth format om cache h
        exact ⟨by rw [ih.1], ih.2⟩
      | node c =>
        dsimp only
        by_cases ha : isAtKey key = true
        · have hb := atBodyC_spec c sel depth format om cache h
          have ih := ruleChildrenC_spec rest sel depth format om
            (atBodyC c sel depth format om cache).2 hb.2
          simp only [ha, if_true]
          exact ⟨by rw [hb.1, ih.1], ih.2⟩
        · rw [if_neg ha, if_neg ha]
          by_cases ho : om (resolveSelector sel key) = true
          · have ih := ruleChildrenC_spec rest sel depth format om cache h
            rw [if_pos ho, if_pos ho]
            dsimp only
            exact ⟨by rw [ih.1], ih.2⟩
          · have hc := compileRuleNodeC_spec c (resolveSelector sel key) depth format
              om cache h
            have ih := ruleChildrenC_spec rest sel depth format om
              (compileRuleNodeC (resolveSelector sel key) c depth format om cache).2 hc.2
            rw [if_neg ho, if_neg ho]
            exact ⟨by rw [hc.1, ih.1], ih.2⟩

theorem atBodyC_spec : ∀ (style : Style) (parentSel : String) (depth : Nat)
    (format : PlumetFormat) (om : String → Bool) (cache : List (String × String)),
    validCache cache →
    (atBodyC style parentSel depth format om cache).1 =
      atBody style parentSel depth format om ∧
    validCache (atBodyC style parentSel depth format om cache).2
  | .mk dollar children, parentSel, depth, format, om, cache, h => by
    rw [atBodyC.eq_def, atBody.eq_def]
    dsimp only
    have hc := collectDeclarationsC_spec dollar cache h
    have ih := atChildrenC_spec children parentSel depth format om
      (collectDeclarationsC dollar cache).2 hc.2
    exact ⟨by rw [hc.1, ih.1], ih.2⟩

theorem atChildrenC_spec : ∀ (children : Children) (parentSel : String) (depth : Nat)
    (format : PlumetFormat) (om : String → Bool) (cache : List (String × String)),
    validCache cache →
    (atChildrenC parentSel children depth format om cache).1 =
      atChildren parentSel children depth format om ∧
    validCache (atChildrenC parentSel children depth format om cache).2
  | .nil, _, _, _, _, cache, h => ⟨rfl, h⟩
  | .cons key child rest, parentSel, depth, format, om, cache, h => by
    rw [atChildrenC.eq_def, atChildren.eq_def]
    dsimp only
    by_cases hk : key = "" ∨ key = "$"
    · have ih := atChildrenC_spec rest parentSel depth format om cache h
      simp only [hk, if_true]
      exact ⟨by rw [ih.1], ih.2⟩
    · simp only [hk, if_false]
      cases child with
      | skip =>
        have ih := atChildrenC_spec rest parentSel depth format om cache h
        exact ⟨by rw [ih.1], ih.2⟩
      | node c =>
        dsimp only
        by_cases ha : isAtKey key = true
        · have hb := atBodyC_spec c parentSel (depth + 1) format om cache h
          have ih := atChildrenC_spec rest parentSel depth format om
            (atBodyC c parentSel (depth + 1) format om cache).2 hb.2
          simp only [ha, if_true]
          exact ⟨by rw [hb.1, ih.1], ih.2⟩
        · rw [if_neg ha, if_neg ha]
          by_cases ho : om (resolveSelector parentSel key) = true
          · have ih := atChildrenC_spec rest parentSel depth format om cache h
            rw [if_pos ho, if_pos ho]
            dsimp only
            exact ⟨by rw [ih.1], ih.2⟩
          · have hc := compileRuleNodeC_spec c (resolveSelector parentSel key)
              (depth + 1) format om cache h
            have ih := atChildrenC_spec rest parentSel depth format om
              (compileRuleNodeC (resolveSelector parentSel key) c (depth + 1) format
                om cache).2 hc.2
            rw [if_neg ho, if_neg ho]
            exact ⟨by rw [hc.1, ih.1], ih.2⟩

end

theorem compileStyleChildrenC_spec : ∀ (children : Children) (format : PlumetFormat)
    (om : String → Bool) (cache : List (String × String)),
    validCache cache →
    (compileStyleChildrenC children format om cache).1 =
      compileStyleChildren children format om ∧
    validCache (compileStyleChildrenC children format om cache).2
  | .nil, _, _, cache, h => ⟨rfl, h⟩
  | .cons key child rest, format, om, cache, h => by
    rw [compileStyleChildrenC.eq_def, compileStyleChildren.eq_def]
    dsimp only
    by_cases hk : key = "" ∨ key = "$"
    · have ih := compileStyleChildrenC_spec rest format om cache h
      simp only [hk, if_true]
      exact ⟨by rw [ih.1], ih.2⟩
    · simp only [hk, if_false]
      cases child with
      | skip =>
        have ih := compileStyleChildrenC_spec rest format om cache h
        exact ⟨by rw [ih.1], ih.2⟩
      | node c =>
        dsimp only
        by_cases ha : isAtKey key = true
        · have hb := atBodyC_spec c "" 0 format om cache h
          have ih := compileStyleChildrenC_spec rest format om
            (atBodyC c "" 0 format om cache).2 hb.2
          simp only [ha, if_true]
          exact ⟨by rw [hb.1, ih.1, compileAtRule], ih.2⟩
        · rw [if_neg ha, if_neg ha]
          by_cases ho : om (resolveSelector "" key) = true
          · have ih := compileStyleChildrenC_spec rest format om cache h
            rw [if_pos ho, if_pos ho]
            dsimp only
            exact ⟨by rw [ih.1], ih.2⟩
          · have hc := compileRuleNodeC_spec c (resolveSelector "" key) 0 format
              om cache h
            have ih := compileStyleChildrenC_spec rest format om
              (compileRuleNodeC (resolveSelector "" key) c 0 format om cache).2 hc.2
            rw [if_neg ho, if_neg ho]
            exact ⟨by rw [hc.1, ih.1], ih.2⟩

theorem compileStyleC_spec (style : Option Style) (options : Option CompileOptionsInput)
    (cache : List (String × String)) (h : validCache cache) :
    (compileStyleC style options cache).1 = compileStyle style options ∧
    validCache (compileStyleC style options cache).2 := by
  cases style with
  | none => exact ⟨rfl, h⟩
  | some s =>
    cases s with
    | mk dollar children =>
      rw [compileStyleC.eq_def, compileStyle.eq_def]
      dsimp only
      exact compileStyleChildrenC_spec children
        ((normalizeOptions options).format.getD .default)
        (createOmitMatcher (normalizeOptions options).omitList) cache h

/-- C9: compilation is deterministic and pure with respect to the
process-wide kebab-case cache: for any valid cache state (every stored
entry equal to the kebab-case of its key — the only states the cache can
reach), the cache-threaded compiler returns exactly the pure
`compileStyle` result, so a run with a cold cache and a run with any warm
cache produce byte-identical output. -/
theorem claim_C9 :
    ∀ (style : Option Style) (options : Option CompileOptionsInput)
      (c1 c2 : List (String × String)),
      validCache c1 → validCache c2 →
      (compileStyleC style options c1).1 = compileStyle style options ∧
      (compileStyleC style options c1).1 = (compileStyleC style options c2).1 := by
  intro style options c1 c2 h1 h2
  have s1 := compileStyleC_spec style options c1 h1
  have s2 := compileStyleC_spec style options c2 h2
  exact ⟨s1.1, by rw [s1.1, s2.1]⟩

/-- Witness for C9: a cold cache and a warm cache (holding the kebab-case
of `backgroundColor`) compile the same tree to the same bytes, equal to the
pure compile. -/
theorem claim_C9_witness :
    (compileStyleC (some styleC9) none []).1 = compileStyle (some styleC9) none ∧
    (compileStyleC (some styleC9) none []).1 =
      (compileStyleC (some styleC9) none
        [("backgroundColor", "background-color")]).1 :=
  claim_C9 (some styleC9) none [] [("backgroundColor", "background-color")]
    (fun p hp => absurd hp (List.not_mem_nil p))
    (by
      intro p hp
      simp only [List.mem_singleton] at hp
      subst hp
      decide)

end Plumet
